import Mathlib

/-!
Verification of the boa contextual recursive-descent expression parser core:
the `MemberExpression` production (member.rs) and the `ArrowFunction`,
`ConciseBody` and `ExpressionBody` productions (arrow_function.rs).

The two source files are translated into executable Lean definitions below.
External collaborators (the token cursor, `PrimaryExpression`, `Arguments`,
`Expression`, `FormalParameters`, `BindingIdentifier`, `FunctionBody`,
`AssignmentExpression`) are not part of the source core; where a concrete
instance is needed they are modelled from the specification, each such
definition carrying a doc comment beginning `Modelled from the spec:`.
-/

namespace Boa

/-- Punctuator token kinds used by these grammar productions. -/
inductive Punctuator where
  | OpenParen
  | CloseParen
  | OpenBlock
  | CloseBlock
  | OpenBracket
  | CloseBracket
  | Dot
  | Arrow
  | Semicolon
  | Comma
deriving DecidableEq, Repr

/-- Keyword token kinds (a small closed set sufficient for these productions). -/
inductive Keyword where
  | New
  | Return
  | If
  | Delete
deriving DecidableEq, Repr

/-- Rendering of a keyword as its source string, mirroring the keyword
to-string conversion used for keyword-as-property-name accesses. -/
def Keyword.toString : Keyword → String
  | .New => "new"
  | .Return => "return"
  | .If => "if"
  | .Delete => "delete"

/-- The kind of a lexer token, mirroring TokenKind. -/
inductive TokenKind where
  | Punctuator : Punctuator → TokenKind
  | Keyword : Keyword → TokenKind
  | Identifier : String → TokenKind
deriving DecidableEq, Repr

/-- A lexer token: its kind, plus whether a line terminator occurs in the
input immediately before it (the information the cursor operation
peek-expect-no-line-terminator consults). -/
structure Token where
  kind : TokenKind
  ltBefore : Bool
deriving DecidableEq, Repr

/-- Parse-error taxonomy.  `AbruptEnd` and `Expected` mirror the error values
constructed by the source (ParseError::AbruptEnd, ParseError::expected).
`RestrictedProduction` is the kind produced by the cursor's
peek-expect-no-line-terminator check, and `RecursionLimitExceeded` is the kind
the specification's error taxonomy reserves for recursion-depth exhaustion;
both of those are modelled from the spec since the error type itself is
declared outside the two source files. -/
inductive ParseError where
  | AbruptEnd
  | Expected (expected : List TokenKind) (found : Token) (ctx : String)
  | RestrictedProduction
  | RecursionLimitExceeded
deriving DecidableEq, Repr

/-- AST nodes produced by the member-expression core, mirroring the node
variants used by the source: Local (identifier), Call, New (owning its call
node), GetConstField, GetField and Return. -/
inductive Node where
  | Local : String → Node
  | Call : Node → List Node → Node
  | New : Node → Node
  | GetConstField : Node → String → Node
  | GetField : Node → Node → Node
  | Return : Node → Node
deriving Repr

/-- A formal parameter: binding name, optional default value, rest flag,
mirroring FormalParameter::new(name, init, is_rest). -/
structure FormalParameter where
  name : String
  init : Option Node
  is_rest : Bool
deriving Repr

/-- A statement list is an ordered sequence of statement nodes. -/
abbrev StatementList := List Node

/-- An arrow-function declaration: parameters plus a statement-list body,
mirroring ArrowFunctionDecl::new(params, body). -/
structure ArrowFunctionDecl where
  params : List FormalParameter
  body : StatementList
deriving Repr

/-- A token-stream parser: consumes tokens from the front of the list and
returns a value together with the remaining tokens, or a parse error. -/
abbrev ParserFn (α : Type) := List Token → Except ParseError (α × List Token)

/-- Modelled from the spec: the token cursor's expect operation (an external
collaborator).  It fails with AbruptEnd when the stream is exhausted, consumes
the next token when its kind matches the requested punctuator, and otherwise
fails with an Expected error carrying the expected kind, the offending token
and the grammar context. -/
def expectP (p : Punctuator) (ctx : String) : List Token → Except ParseError (List Token)
  | [] => .error .AbruptEnd
  | tok :: rest =>
    if tok.kind = TokenKind.Punctuator p then .ok rest
    else .error (.Expected [TokenKind.Punctuator p] tok ctx)

/-- Modelled from the spec: the cursor's peek-expect-no-line-terminator
operation (an external collaborator).  It fails with AbruptEnd on an exhausted
stream, fails with RestrictedProduction when the next token is preceded by a
line terminator, and otherwise leaves the stream unchanged. -/
def peekExpectNoLineTerminator : List Token → Except ParseError (List Token)
  | [] => .error .AbruptEnd
  | tok :: rest =>
    if tok.ltBefore then .error .RestrictedProduction else .ok (tok :: rest)

/-- Modelled from the spec: the error-context combinator used via
.context("arrow function"); it replaces the context of an Expected error and
leaves every other outcome unchanged. -/
def withContext {α : Type} (ctx : String) : Except ParseError (α × List Token) → Except ParseError (α × List Token)
  | .error (.Expected exp found _) => .error (.Expected exp found ctx)
  | r => r

/-- Modelled from the spec: the PrimaryExpression collaborator (a lower
grammar layer).  Here it parses a single identifier token into an identifier
node; it fails with AbruptEnd on an exhausted stream and with an Expected
error otherwise. -/
def PrimaryExpressionModel (_ay _aa : Bool) : ParserFn Node := fun ts =>
  match ts with
  | [] => .error .AbruptEnd
  | tok :: rest =>
    match tok.kind with
    | .Identifier name => .ok (.Local name, rest)
    | _ => .error (.Expected [TokenKind.Identifier "identifier"] tok "primary expression")

/-- Modelled from the spec: the Arguments collaborator.  It requires an
opening parenthesis, then either a closing parenthesis (empty argument list)
or a single identifier argument followed by a closing parenthesis; it fails
with AbruptEnd when the stream ends inside the list. -/
def ArgumentsModel (_ay _aa : Bool) : ParserFn (List Node) := fun ts =>
  match ts with
  | [] => .error .AbruptEnd
  | tok :: rest =>
    match tok.kind with
    | .Punctuator .OpenParen =>
      match rest with
      | [] => .error .AbruptEnd
      | tok2 :: rest2 =>
        match tok2.kind with
        | .Punctuator .CloseParen => .ok ([], rest2)
        | .Identifier name =>
          match rest2 with
          | [] => .error .AbruptEnd
          | tok3 :: rest3 =>
            match tok3.kind with
            | .Punctuator .CloseParen => .ok ([Node.Local name], rest3)
            | _ => .error (.Expected [TokenKind.Punctuator .CloseParen] tok3 "arguments")
        | _ => .error (.Expected [TokenKind.Punctuator .CloseParen] tok2 "arguments")
    | _ => .error (.Expected [TokenKind.Punctuator .OpenParen] tok "arguments")

/-- Modelled from the spec: the Expression collaborator used inside bracketed
accessors.  Here it parses a single identifier token. -/
def ExpressionModel (_ai _ay _aa : Bool) : ParserFn Node := fun ts =>
  match ts with
  | [] => .error .AbruptEnd
  | tok :: rest =>
    match tok.kind with
    | .Identifier name => .ok (.Local name, rest)
    | _ => .error (.Expected [TokenKind.Identifier "identifier"] tok "expression")

theorem ExpressionModel_length (ai ay aa : Bool) (ts ts1 : List Token) (n : Node)
    (h : ExpressionModel ai ay aa ts = .ok (n, ts1)) : ts1.length < ts.length := by
  cases ts with
  | nil => simp [ExpressionModel] at h
  | cons tok rest =>
    cases hk : tok.kind with
    | Identifier name =>
      simp [ExpressionModel, hk] at h
      simp [← h.2]
    | Punctuator p => simp [ExpressionModel, hk] at h
    | Keyword k => simp [ExpressionModel, hk] at h

theorem expectP_length (p : Punctuator) (ctx : String) (ts ts2 : List Token)
    (h : expectP p ctx ts = .ok ts2) : ts2.length < ts.length := by
  cases ts with
  | nil => simp [expectP] at h
  | cons tok rest =>
    by_cases hk : tok.kind = TokenKind.Punctuator p
    · simp [expectP, hk] at h
      simp [← h]
    · simp [expectP, hk] at h

/-- The trailing-accessor loop of MemberExpression::parse (member.rs lines
70-99): starting from an accumulated left-hand side, repeatedly consume a dot
accessor (requiring an identifier or keyword after the dot) or a bracketed
accessor (delegating to the Expression collaborator and requiring a closing
bracket), wrapping the accumulated node left-associatively; any other next
token, or the end of the stream, terminates the loop successfully. -/
def MemberExpression.loop (ay aa : Bool) (lhs : Node) (ts : List Token) :
    Except ParseError (Node × List Token) :=
  match ts with
  | [] => .ok (lhs, [])
  | tok :: rest =>
    match tok.kind with
    | .Punctuator .Dot =>
      match rest with
      | [] => .error .AbruptEnd
      | tok2 :: rest2 =>
        match tok2.kind with
        | .Identifier name => MemberExpression.loop ay aa (.GetConstField lhs name) rest2
        | .Keyword kw => MemberExpression.loop ay aa (.GetConstField lhs kw.toString) rest2
        | _ => .error (.Expected [TokenKind.Identifier "identifier"] tok "member expression")
    | .Punctuator .OpenBracket =>
      match hexp : ExpressionModel true ay aa rest with
      | .error e => .error e
      | .ok (idx, ts1) =>
        match hcl : expectP .CloseBracket "member expression" ts1 with
        | .error e => .error e
        | .ok ts2 => MemberExpression.loop ay aa (.GetField lhs idx) ts2
    | _ => .ok (lhs, tok :: rest)
termination_by ts.length
decreasing_by
  · simp; omega
  · simp; omega
  · have h1 := ExpressionModel_length true ay aa rest ts1 idx hexp
    have h2 := expectP_length .CloseBracket "member expression" ts1 ts2 hcl
    simp
    omega

/-- MemberExpression::parse (member.rs lines 56-102): if the next token is the
new keyword, consume it, recursively parse a member expression as the
construction target, parse a required argument list, and build
New(Call(target, args)); otherwise parse a primary expression.  Either way,
finish with the trailing-accessor loop. -/
def MemberExpression.parse (ay aa : Bool) : (ts : List Token) → Except ParseError (Node × List Token)
  | [] => .error .AbruptEnd
  | tok :: rest =>
    match tok.kind with
    | .Keyword .New =>
      match MemberExpression.parse ay aa rest with
      | .error e => .error e
      | .ok (lhs, ts1) =>
        match ArgumentsModel ay aa ts1 with
        | .error e => .error e
        | .ok (args, ts2) => MemberExpression.loop ay aa (.New (.Call lhs args)) ts2
    | _ =>
      match PrimaryExpressionModel ay aa (tok :: rest) with
      | .error e => .error e
      | .ok (lhs, ts1) => MemberExpression.loop ay aa lhs ts1

/-- The bundle of external collaborators the arrow-function productions
delegate to, each indexed by the grammar-context flags it is constructed
with: FormalParameters and BindingIdentifier by (allow-yield, allow-await),
FunctionBody by its two flags, and AssignmentExpression by
(allow-in, allow-yield, allow-await). -/
structure ArrowCollab where
  formalParameters : Bool → Bool → ParserFn (List FormalParameter)
  bindingIdentifier : Bool → Bool → ParserFn String
  functionBody : Bool → Bool → ParserFn StatementList
  assignmentExpression : Bool → Bool → Bool → ParserFn Node

/-- ExpressionBody::parse (arrow_function.rs lines 150-156): delegate to
AssignmentExpression constructed with (allow-in, false, allow-await). -/
def ExpressionBody.parse (c : ArrowCollab) (allowIn allowAwait : Bool) : ParserFn Node :=
  fun ts => c.assignmentExpression allowIn false allowAwait ts

/-- ConciseBody::parse (arrow_function.rs lines 113-126): on an opening
block, consume it, parse a function body with both flags false and require
the closing block; otherwise parse an expression body constructed with
(allow-in, false) and wrap it as a one-element statement list holding a
Return node. -/
def ConciseBody.parse (c : ArrowCollab) (allowIn : Bool) : ParserFn StatementList := fun ts =>
  match ts with
  | [] => .error .AbruptEnd
  | tok :: rest =>
    match tok.kind with
    | .Punctuator .OpenBlock =>
      match c.functionBody false false rest with
      | .error e => .error e
      | .ok (body, ts1) =>
        match expectP .CloseBlock "arrow function" ts1 with
        | .error e => .error e
        | .ok ts2 => .ok (body, ts2)
    | _ =>
      match ExpressionBody.parse c allowIn false (tok :: rest) with
      | .error e => .error e
      | .ok (node, ts1) => .ok ([Node.Return node], ts1)

/-- The parameter-list phase of ArrowFunction::parse (arrow_function.rs lines
68-80): peek one token (AbruptEnd on an empty stream); on an opening
parenthesis, consume it, parse formal parameters under this parser's own
allow-yield/allow-await context and require the closing parenthesis;
otherwise parse a single binding identifier (same context, error context set
to "arrow function") and synthesize a one-element parameter list with no
default and rest flag false. -/
def ArrowFunction.parseParams (c : ArrowCollab) (ay aa : Bool) : ParserFn (List FormalParameter) := fun ts =>
  match ts with
  | [] => .error .AbruptEnd
  | tok :: _ =>
    match tok.kind with
    | .Punctuator .OpenParen =>
      match expectP .OpenParen "arrow function" ts with
      | .error e => .error e
      | .ok ts0 =>
        match c.formalParameters ay aa ts0 with
        | .error e => .error e
        | .ok (params, ts1) =>
          match expectP .CloseParen "arrow function" ts1 with
          | .error e => .error e
          | .ok ts2 => .ok (params, ts2)
    | _ =>
      match withContext "arrow function" (c.bindingIdentifier ay aa ts) with
      | .error e => .error e
      | .ok (name, ts1) => .ok ([FormalParameter.mk name none false], ts1)

/-- ArrowFunction::parse (arrow_function.rs lines 66-89): parse the parameter
list, check that the next token is not preceded by a line terminator, require
the arrow punctuator, parse the concise body constructed with this parser's
allow-in flag only, and build the declaration. -/
def ArrowFunction.parse (c : ArrowCollab) (allowIn ay aa : Bool) : ParserFn ArrowFunctionDecl := fun ts =>
  match ArrowFunction.parseParams c ay aa ts with
  | .error e => .error e
  | .ok (params, ts1) =>
    match peekExpectNoLineTerminator ts1 with
    | .error e => .error e
    | .ok ts2 =>
      match expectP .Arrow "arrow function" ts2 with
      | .error e => .error e
      | .ok ts3 =>
        match ConciseBody.parse c allowIn ts3 with
        | .error e => .error e
        | .ok (body, ts4) => .ok (ArrowFunctionDecl.mk params body, ts4)

/-- Modelled from the spec: the FormalParameters collaborator.  It fails with
AbruptEnd on an exhausted stream, parses a single identifier parameter (no
default, not rest), and otherwise returns an empty parameter list without
consuming anything, leaving the closing parenthesis to the caller. -/
def FormalParametersModel (_ay _aa : Bool) : ParserFn (List FormalParameter) := fun ts =>
  match ts with
  | [] => .error .AbruptEnd
  | tok :: rest =>
    match tok.kind with
    | .Identifier name => .ok ([FormalParameter.mk name none false], rest)
    | _ => .ok ([], tok :: rest)

/-- Modelled from the spec: the BindingIdentifier collaborator.  It fails
with AbruptEnd on an exhausted stream, consumes an identifier token, and
fails with an Expected error on any other token. -/
def BindingIdentifierModel (_ay _aa : Bool) : ParserFn String := fun ts =>
  match ts with
  | [] => .error .AbruptEnd
  | tok :: rest =>
    match tok.kind with
    | .Identifier name => .ok (name, rest)
    | _ => .error (.Expected [TokenKind.Identifier "identifier"] tok "binding identifier")

/-- Modelled from the spec: the FunctionBody statement-list collaborator.  It
parses a single return statement (return keyword, identifier, semicolon) into
a one-element statement list, and otherwise returns an empty statement list
without consuming anything, leaving the closing block to the caller. -/
def FunctionBodyModel (_g _a : Bool) : ParserFn StatementList := fun ts =>
  match ts with
  | tok1 :: tok2 :: tok3 :: rest =>
    match tok1.kind, tok2.kind, tok3.kind with
    | .Keyword .Return, .Identifier name, .Punctuator .Semicolon =>
      .ok ([Node.Return (.Local name)], rest)
    | _, _, _ => .ok ([], ts)
  | _ => .ok ([], ts)

/-- Modelled from the spec: the AssignmentExpression collaborator.  Here it
parses a single identifier token into an identifier node. -/
def AssignmentExpressionModel (_ai _ay _aa : Bool) : ParserFn Node := fun ts =>
  match ts with
  | [] => .error .AbruptEnd
  | tok :: rest =>
    match tok.kind with
    | .Identifier name => .ok (.Local name, rest)
    | _ => .error (.Expected [TokenKind.Identifier "identifier"] tok "assignment expression")

/-- The arrow-function collaborators instantiated with the models above. -/
def arrowModels : ArrowCollab :=
  ⟨FormalParametersModel, BindingIdentifierModel, FunctionBodyModel, AssignmentExpressionModel⟩

/-- Rendering of a boolean flag as a one-letter string, used by the probe
collaborators below to make the grammar-context flags they receive visible in
their output. -/
def bstr : Bool → String
  | true => "T"
  | false => "F"

/-- A probe standing in for the FunctionBody collaborator: it consumes
nothing and returns a statement list recording the two flags it was
constructed with. -/
def functionBodyProbe : Bool → Bool → ParserFn StatementList :=
  fun g a ts => .ok ([Node.Local (bstr g ++ bstr a)], ts)

/-- A probe standing in for the AssignmentExpression collaborator: it
consumes nothing and returns a node recording the three flags it was
constructed with. -/
def assignmentProbe : Bool → Bool → Bool → ParserFn Node :=
  fun i y a ts => .ok (Node.Local (bstr i ++ bstr y ++ bstr a), ts)

/-- The arrow-function collaborators with the two body collaborators replaced
by flag-recording probes. -/
def probeCollab : ArrowCollab :=
  ⟨FormalParametersModel, BindingIdentifierModel, functionBodyProbe, assignmentProbe⟩

/-- A token with the given kind and no preceding line terminator. -/
def tkP (p : Punctuator) : Token := ⟨.Punctuator p, false⟩

/-- A keyword token with no preceding line terminator. -/
def tkKw (k : Keyword) : Token := ⟨.Keyword k, false⟩

/-- An identifier token with no preceding line terminator. -/
def tkId (s : String) : Token := ⟨.Identifier s, false⟩

/-- A token with the given kind that is preceded by a line terminator. -/
def tkPLt (p : Punctuator) : Token := ⟨.Punctuator p, true⟩

/-- Whether a token kind starts a trailing accessor of a member expression:
exactly the dot and opening-bracket punctuators. -/
def isAccessorStart : TokenKind → Bool
  | .Punctuator .Dot => true
  | .Punctuator .OpenBracket => true
  | _ => false

/-- The base of a chain of accessor wrappers: strip GetConstField and
GetField nodes off a node until neither remains. -/
def accessorSpine : Node → Node
  | .GetConstField b _ => accessorSpine b
  | .GetField b _ => accessorSpine b
  | .Local s => .Local s
  | .Call f xs => .Call f xs
  | .New c => .New c
  | .Return e => .Return e

theorem MemberExpression.loop_stop (ay aa : Bool) (lhs : Node) (tok : Token)
    (rest : List Token) (h : isAccessorStart tok.kind = false) :
    MemberExpression.loop ay aa lhs (tok :: rest) = .ok (lhs, tok :: rest) := by
  have hd : tok.kind ≠ TokenKind.Punctuator .Dot := by
    intro he; simp [isAccessorStart, he] at h
  have hb : tok.kind ≠ TokenKind.Punctuator .OpenBracket := by
    intro he; simp [isAccessorStart, he] at h
  cases rest with
  | nil =>
    rw [MemberExpression.loop.eq_2]
    split
    · rename_i heqq; exact absurd heqq hd
    · rename_i heqq; exact absurd heqq hb
    · rfl
  | cons t2 r2 =>
    rw [MemberExpression.loop.eq_3]
    split
    · rename_i heqq; exact absurd heqq hd
    · rename_i heqq; exact absurd heqq hb
    · rfl

theorem MemberExpression.loop_dot_ident (ay aa : Bool) (lhs : Node) (d t2 : Token)
    (name : String) (rest : List Token) (hd : d.kind = .Punctuator .Dot)
    (ht : t2.kind = .Identifier name) :
    MemberExpression.loop ay aa lhs (d :: t2 :: rest)
      = MemberExpression.loop ay aa (.GetConstField lhs name) rest := by
  rw [MemberExpression.loop.eq_3]
  simp only [hd, ht]

theorem MemberExpression.loop_dot_kw (ay aa : Bool) (lhs : Node) (d t2 : Token)
    (kw : Keyword) (rest : List Token) (hd : d.kind = .Punctuator .Dot)
    (ht : t2.kind = .Keyword kw) :
    MemberExpression.loop ay aa lhs (d :: t2 :: rest)
      = MemberExpression.loop ay aa (.GetConstField lhs kw.toString) rest := by
  rw [MemberExpression.loop.eq_3]
  simp only [hd, ht]

theorem MemberExpression.loop_dot_stuck (ay aa : Bool) (lhs : Node) (d t2 : Token)
    (p : Punctuator) (rest : List Token) (hd : d.kind = .Punctuator .Dot)
    (ht : t2.kind = .Punctuator p) :
    MemberExpression.loop ay aa lhs (d :: t2 :: rest)
      = .error (.Expected [TokenKind.Identifier "identifier"] d "member expression") := by
  rw [MemberExpression.loop.eq_3]
  simp only [hd, ht]

theorem MemberExpression.loop_dot_end (ay aa : Bool) (lhs : Node) (d : Token)
    (hd : d.kind = .Punctuator .Dot) :
    MemberExpression.loop ay aa lhs [d] = .error .AbruptEnd := by
  rw [MemberExpression.loop.eq_2]
  simp only [hd]

theorem isAccessorStart_false (k : TokenKind) (hd : k ≠ TokenKind.Punctuator .Dot)
    (hb : k ≠ TokenKind.Punctuator .OpenBracket) : isAccessorStart k = false := by
  cases k with
  | Punctuator p => cases p <;> simp_all [isAccessorStart]
  | Keyword kw => simp [isAccessorStart]
  | Identifier s => simp [isAccessorStart]

theorem MemberExpression.loop_spine_aux (ay aa : Bool) :
    ∀ (n : Nat) (ts : List Token), ts.length ≤ n →
      ∀ (lhs res : Node) (ts1 : List Token),
        MemberExpression.loop ay aa lhs ts = .ok (res, ts1) →
        accessorSpine res = accessorSpine lhs := by
  intro n
  induction n with
  | zero =>
    intro ts hlen lhs res ts1 h
    have hts : ts = [] := List.length_eq_zero.mp (Nat.le_zero.mp hlen)
    subst hts
    rw [MemberExpression.loop.eq_1] at h
    simp only [Except.ok.injEq, Prod.mk.injEq] at h
    rw [← h.1]
  | succ n ih =>
    intro ts hlen lhs res ts1 h
    cases ts with
    | nil =>
      rw [MemberExpression.loop.eq_1] at h
      simp only [Except.ok.injEq, Prod.mk.injEq] at h
      rw [← h.1]
    | cons tok rest =>
      by_cases hd : tok.kind = TokenKind.Punctuator .Dot
      · cases rest with
        | nil => rw [MemberExpression.loop_dot_end ay aa lhs tok hd] at h; exact absurd h (by simp)
        | cons t2 r2 =>
          cases ht : t2.kind with
          | Identifier name =>
            rw [MemberExpression.loop_dot_ident ay aa lhs tok t2 name r2 hd ht] at h
            have hr : accessorSpine res = accessorSpine (Node.GetConstField lhs name) :=
              ih r2 (by simp at hlen; omega) _ res ts1 h
            rw [hr]
            simp [accessorSpine]
          | Keyword kw =>
            rw [MemberExpression.loop_dot_kw ay aa lhs tok t2 kw r2 hd ht] at h
            have hr : accessorSpine res = accessorSpine (Node.GetConstField lhs kw.toString) :=
              ih r2 (by simp at hlen; omega) _ res ts1 h
            rw [hr]
            simp [accessorSpine]
          | Punctuator p =>
            rw [MemberExpression.loop_dot_stuck ay aa lhs tok t2 p r2 hd ht] at h
            exact absurd h (by simp)
      · by_cases hb : tok.kind = TokenKind.Punctuator .OpenBracket
        · cases rest with
          | nil =>
            rw [MemberExpression.loop.eq_2] at h
            simp [hb, ExpressionModel] at h
          | cons t2 r2 =>
            rw [MemberExpression.loop.eq_3] at h
            simp only [hb] at h
            split at h
            · exact absurd h (by simp)
            · rename_i idx tsA hexp
              split at h
              · exact absurd h (by simp)
              · rename_i ts2 hcl
                have l1 := ExpressionModel_length true ay aa (t2 :: r2) tsA idx hexp
                have l2 := expectP_length .CloseBracket "member expression" tsA ts2 hcl
                have hl2 : ts2.length ≤ n := by
                  simp at hlen l1
                  omega
                have hr : accessorSpine res = accessorSpine (Node.GetField lhs idx) :=
                  ih ts2 hl2 _ res ts1 h
                rw [hr]
                simp [accessorSpine]
        · rw [MemberExpression.loop_stop ay aa lhs tok rest
            (isAccessorStart_false tok.kind hd hb)] at h
          simp only [Except.ok.injEq, Prod.mk.injEq] at h
          rw [← h.1]

theorem MemberExpression.loop_spine (ay aa : Bool) (lhs : Node) (ts : List Token)
    (res : Node) (ts1 : List Token)
    (h : MemberExpression.loop ay aa lhs ts = .ok (res, ts1)) :
    accessorSpine res = accessorSpine lhs :=
  MemberExpression.loop_spine_aux ay aa ts.length ts (Nat.le_refl _) lhs res ts1 h

theorem MemberExpression.parse_new_spine (ay aa : Bool) (ts rest : List Token)
    (node : Node) (nk : Token) (hk : nk.kind = .Keyword .New)
    (h : MemberExpression.parse ay aa (nk :: ts) = .ok (node, rest)) :
    ∃ target args, accessorSpine node = .New (.Call target args) := by
  rw [MemberExpression.parse.eq_2] at h
  simp only [hk] at h
  split at h
  · exact absurd h (by simp)
  · rename_i lhs ts1 hrec
    split at h
    · exact absurd h (by simp)
    · rename_i args ts2 hargs
      refine ⟨lhs, args, ?_⟩
      rw [MemberExpression.loop_spine ay aa (.New (.Call lhs args)) ts2 node rest h]
      rfl

/-- The token stream of a chain of dot accessors: for each name in the list,
a dot punctuator followed by that identifier. -/
def dotChain : List String → List Token
  | [] => []
  | n :: ns => tkP .Dot :: tkId n :: dotChain ns

theorem MemberExpression.loop_dotChain (ay aa : Bool) :
    ∀ (ns : List String) (lhs : Node),
      MemberExpression.loop ay aa lhs (dotChain ns)
        = .ok (ns.foldl Node.GetConstField lhs, []) := by
  intro ns
  induction ns with
  | nil =>
    intro lhs
    simp [dotChain, MemberExpression.loop.eq_1]
  | cons n ns ih =>
    intro lhs
    have hstep : dotChain (n :: ns) = tkP .Dot :: tkId n :: dotChain ns := rfl
    rw [hstep, MemberExpression.loop_dot_ident ay aa lhs (tkP .Dot) (tkId n) n
      (dotChain ns) rfl rfl, ih]
    simp [List.foldl]

/-- The token stream of m consecutive empty argument lists. -/
def argLists : Nat → List Token
  | 0 => []
  | m + 1 => tkP .OpenParen :: tkP .CloseParen :: argLists m

theorem MemberExpression.loop_argLists (ay aa : Bool) (lhs : Node) :
    ∀ (m : Nat), MemberExpression.loop ay aa lhs (argLists m) = .ok (lhs, argLists m) := by
  intro m
  cases m with
  | zero => simp [argLists, MemberExpression.loop.eq_1]
  | succ m =>
    have hstep : argLists (m + 1) = tkP .OpenParen :: tkP .CloseParen :: argLists m := rfl
    rw [hstep]
    exact MemberExpression.loop_stop ay aa lhs (tkP .OpenParen) _ rfl

/-- The token stream of the member expression consisting of n new keywords,
the identifier Foo, and n empty argument lists. -/
def newChain (n : Nat) : List Token :=
  List.replicate n (tkKw .New) ++ (tkId "Foo" :: argLists n)

/-- The node a well-formed new-chain of depth n parses to: n nestings of
New(Call(-, [])) around the identifier Foo. -/
def nestedNew : Nat → Node
  | 0 => .Local "Foo"
  | n + 1 => .New (.Call (nestedNew n) [])

theorem MemberExpression.parse_chain (ay aa : Bool) :
    ∀ (n m : Nat),
      MemberExpression.parse ay aa
          (List.replicate n (tkKw .New) ++ (tkId "Foo" :: argLists (n + m)))
        = .ok (nestedNew n, argLists m) := by
  intro n
  induction n with
  | zero =>
    intro m
    simp only [List.replicate, List.nil_append, Nat.zero_add]
    rw [MemberExpression.parse.eq_2]
    simp [PrimaryExpressionModel, tkId, nestedNew, MemberExpression.loop_argLists ay aa]
  | succ n ih =>
    intro m
    have hadd : n + 1 + m = n + (m + 1) := by omega
    have hrepl : List.replicate (n + 1) (tkKw .New) ++ (tkId "Foo" :: argLists (n + 1 + m))
        = tkKw .New :: (List.replicate n (tkKw .New) ++ (tkId "Foo" :: argLists (n + (m + 1)))) := by
      rw [hadd, List.replicate_succ, List.cons_append]
    rw [hrepl, MemberExpression.parse.eq_2]
    have hkind : (tkKw Keyword.New).kind = TokenKind.Keyword Keyword.New := rfl
    simp only [hkind]
    rw [ih (m + 1)]
    have hargs : ArgumentsModel ay aa (argLists (m + 1)) = .ok ([], argLists m) := by
      simp [argLists, ArgumentsModel, tkP]
    simp only [hargs]
    rw [MemberExpression.loop_argLists ay aa (.New (.Call (nestedNew n) [])) m]
    rfl

theorem MemberExpression.parse_newChain (ay aa : Bool) (n : Nat) :
    MemberExpression.parse ay aa (newChain n) = .ok (nestedNew n, []) := by
  have h := MemberExpression.parse_chain ay aa n 0
  simpa [newChain, argLists] using h

/-- C1: when the token stream begins with the new keyword, member-expression
parsing consumes it, recursively parses a member expression as the
construction target, requires and parses an argument list, and builds
New(Call(target, args)).  Concretely, new new Foo()() parses to
New(Call(New(Call(Foo, [])), [])); the input new Foo, whose target is not
followed by an argument list, fails rather than producing an argument-less
new expression; and every successful parse of a stream beginning with new
yields a node whose accessor spine is a New node wrapping a Call. -/
theorem C1_new_requires_call :
    MemberExpression.parse false false
        [tkKw .New, tkKw .New, tkId "Foo", tkP .OpenParen, tkP .CloseParen,
         tkP .OpenParen, tkP .CloseParen]
      = .ok (.New (.Call (.New (.Call (.Local "Foo") [])) []), [])
    ∧ MemberExpression.parse false false [tkKw .New, tkId "Foo"] = .error .AbruptEnd
    ∧ ∀ (ay aa : Bool) (ts rest : List Token) (node : Node),
        MemberExpression.parse ay aa (tkKw .New :: ts) = .ok (node, rest) →
        ∃ target args, accessorSpine node = .New (.Call target args) := by
  refine ⟨?_, ?_, ?_⟩
  · simp [MemberExpression.parse, PrimaryExpressionModel, ArgumentsModel,
      MemberExpression.loop, tkId, tkP, tkKw]
  · simp [MemberExpression.parse, PrimaryExpressionModel, ArgumentsModel,
      MemberExpression.loop, tkId, tkKw]
  · intro ay aa ts rest node h
    exact MemberExpression.parse_new_spine ay aa ts rest node (tkKw .New) rfl h

/-- Witness for C1: the universal clause applied at the concrete input
new Foo(), whose parse is evaluated by simp. -/
theorem C1_witness :
    ∃ target args,
      accessorSpine (Node.New (.Call (.Local "Foo") [])) = Node.New (.Call target args) :=
  C1_new_requires_call.2.2 false false [tkId "Foo", tkP .OpenParen, tkP .CloseParen] []
    (Node.New (.Call (.Local "Foo") []))
    (by simp [MemberExpression.parse, PrimaryExpressionModel, ArgumentsModel,
      MemberExpression.loop, tkId, tkP, tkKw])

/-- C2: the arrow-function parser checks the no-line-terminator restriction
after the parameter list and before matching the arrow: with a line
terminator before the arrow the parse fails with RestrictedProduction, the
same input without the line break succeeds, and in general whenever the
parameter phase succeeds and the next token is preceded by a line
terminator, the parse fails with RestrictedProduction. -/
theorem C2_restricted_production :
    ArrowFunction.parse arrowModels true false false
        [tkP .OpenParen, tkId "x", tkP .CloseParen, tkPLt .Arrow, tkId "x"]
      = .error .RestrictedProduction
    ∧ ArrowFunction.parse arrowModels true false false
        [tkP .OpenParen, tkId "x", tkP .CloseParen, tkP .Arrow, tkId "x"]
      = .ok (⟨[⟨"x", none, false⟩], [.Return (.Local "x")]⟩, [])
    ∧ ∀ (c : ArrowCollab) (i y a : Bool) (ts ts1 : List Token)
        (ps : List FormalParameter) (tok : Token),
        ArrowFunction.parseParams c y a ts = .ok (ps, tok :: ts1) →
        tok.ltBefore = true →
        ArrowFunction.parse c i y a ts = .error .RestrictedProduction := by
  refine ⟨rfl, rfl, ?_⟩
  intro c i y a ts ts1 ps tok hp hlt
  simp [ArrowFunction.parse, hp, peekExpectNoLineTerminator, hlt]

/-- Witness for C2: the universal clause applied to the shorthand arrow with
a line terminator before the arrow token. -/
theorem C2_witness :
    ArrowFunction.parse arrowModels false false false [tkId "x", tkPLt .Arrow, tkId "x"]
      = .error .RestrictedProduction :=
  C2_restricted_production.2.2 arrowModels false false false
    [tkId "x", tkPLt .Arrow, tkId "x"] [tkId "x"] [⟨"x", none, false⟩] (tkPLt .Arrow) rfl rfl

/-- C3: for any parameter name and identifier expression, the
expression-bodied arrow parses to the same declaration as the block-bodied
arrow whose block is a single return of that expression: both bodies are the
one-element statement list holding a Return of the expression. -/
theorem C3_concise_body_normalization (i y a : Bool) (p e : String) :
    ArrowFunction.parse arrowModels i y a [tkId p, tkP .Arrow, tkId e]
      = .ok (⟨[⟨p, none, false⟩], [.Return (.Local e)]⟩, [])
    ∧ ArrowFunction.parse arrowModels i y a
        [tkId p, tkP .Arrow, tkP .OpenBlock, tkKw .Return, tkId e,
         tkP .Semicolon, tkP .CloseBlock]
      = .ok (⟨[⟨p, none, false⟩], [.Return (.Local e)]⟩, []) :=
  ⟨rfl, rfl⟩

/-- C4: for any identifier, the shorthand arrow and the parenthesized arrow
parse to structurally equal declarations: a single formal parameter binding
that identifier with no default and rest flag false, and equal bodies. -/
theorem C4_shorthand_paren_equivalence (i y a : Bool) (x : String) :
    ArrowFunction.parse arrowModels i y a [tkId x, tkP .Arrow, tkId x]
      = .ok (⟨[⟨x, none, false⟩], [.Return (.Local x)]⟩, [])
    ∧ ArrowFunction.parse arrowModels i y a
        [tkP .OpenParen, tkId x, tkP .CloseParen, tkP .Arrow, tkId x]
      = .ok (⟨[⟨x, none, false⟩], [.Return (.Local x)]⟩, []) :=
  ⟨rfl, rfl⟩

/-- C5: the accessor loop is strictly left-associative: a.b.c parses to
GetConstField(GetConstField(a, b), c); a whole chain of dot accessors folds
its names left-associatively onto the accumulated left-hand side; and a
keyword after a dot (a.new) succeeds as GetConstField with the keyword
rendered as its string. -/
theorem C5_left_associativity :
    (∀ ay aa : Bool, MemberExpression.parse ay aa
        [tkId "a", tkP .Dot, tkId "b", tkP .Dot, tkId "c"]
      = .ok (.GetConstField (.GetConstField (.Local "a") "b") "c", []))
    ∧ (∀ (ay aa : Bool) (lhs : Node) (ns : List String),
        MemberExpression.loop ay aa lhs (dotChain ns)
          = .ok (ns.foldl Node.GetConstField lhs, []))
    ∧ (∀ ay aa : Bool, MemberExpression.parse ay aa [tkId "a", tkP .Dot, tkKw .New]
        = .ok (.GetConstField (.Local "a") "new", [])) := by
  refine ⟨?_, ?_, ?_⟩
  · intro ay aa
    simp [MemberExpression.parse, PrimaryExpressionModel, MemberExpression.loop,
      tkId, tkP]
  · intro ay aa lhs ns
    exact MemberExpression.loop_dotChain ay aa ns lhs
  · intro ay aa
    simp [MemberExpression.parse, PrimaryExpressionModel, MemberExpression.loop,
      tkId, tkP, tkKw, Keyword.toString]

/-- C6: the arrow body is parsed without the arrow parser's own allow-yield
and allow-await flags.  With flag-recording probes as the body collaborators,
for every combination of the parser's own flags the block-bodied branch
invokes the function-body collaborator with both flags false, and the
expression-bodied branch invokes the assignment-expression collaborator with
allow-yield false, allow-await false, and only the original allow-in flag
forwarded. -/
theorem C6_body_flags (i y a : Bool) (x : String) :
    ArrowFunction.parse probeCollab i y a
        [tkId x, tkP .Arrow, tkP .OpenBlock, tkP .CloseBlock]
      = .ok (⟨[⟨x, none, false⟩], [.Local (bstr false ++ bstr false)]⟩, [])
    ∧ ArrowFunction.parse probeCollab i y a [tkId x, tkP .Arrow, tkId "e"]
      = .ok (⟨[⟨x, none, false⟩],
          [.Return (.Local (bstr i ++ bstr false ++ bstr false))]⟩, [tkId "e"]) :=
  ⟨rfl, rfl⟩

/-- C7: the member parser has no recursion bound on new chains: a chain of
any depth n parses successfully to n nestings of New(Call(-, [])), so deep
chains are never converted into the RecursionLimitExceeded error kind the
specification's taxonomy reserves for them. -/
theorem C7_no_recursion_limit (n : Nat) (ay aa : Bool) :
    MemberExpression.parse ay aa (newChain n) = .ok (nestedNew n, []) :=
  MemberExpression.parse_newChain ay aa n

/-- C8 counterexample: when a dot is followed by a token that is neither an
identifier nor a keyword, the Expected error carries the dot token itself as
the found token, not the offending token that followed the dot: on the
input a.( the found token of the error is the dot, which is a different
token from the opening parenthesis that followed it. -/
theorem C8_counterexample :
    MemberExpression.parse false false [tkId "a", tkP .Dot, tkP .OpenParen]
      = .error (.Expected [TokenKind.Identifier "identifier"] (tkP .Dot) "member expression")
    ∧ tkP .Dot ≠ tkP .OpenParen := by
  constructor
  · simp [MemberExpression.parse, PrimaryExpressionModel, MemberExpression.loop,
      tkId, tkP]
  · decide

/-- C8 amended: when a dot accessor is followed by a token that is neither an
identifier nor a keyword, member-expression parsing fails with an Expected
error that carries the expected identifier kind and the dot token peeked at
the head of the accessor loop (not the token that followed the dot),
together with the grammar context. -/
theorem C8_expected_carries_dot (ay aa : Bool) (name : String) (d t2 : Token)
    (p : Punctuator) (rest : List Token)
    (hd : d.kind = .Punctuator .Dot) (ht : t2.kind = .Punctuator p) :
    MemberExpression.parse ay aa (tkId name :: d :: t2 :: rest)
      = .error (.Expected [TokenKind.Identifier "identifier"] d "member expression") := by
  rw [MemberExpression.parse.eq_2]
  simp only [tkId, PrimaryExpressionModel]
  exact MemberExpression.loop_dot_stuck ay aa (.Local name) d t2 p rest hd ht

/-- Witness for C8: the amended theorem applied at the concrete input a.; -/
theorem C8_witness :
    MemberExpression.parse false false [tkId "a", tkP .Dot, tkP .Semicolon]
      = .error (.Expected [TokenKind.Identifier "identifier"] (tkP .Dot) "member expression") :=
  C8_expected_carries_dot false false "a" (tkP .Dot) (tkP .Semicolon) .Semicolon [] rfl rfl

/-- C9: wherever a token is structurally required and the stream is
exhausted, both parsers fail with AbruptEnd: an empty stream given to
ArrowFunction (for any collaborators and flags), to ConciseBody, or to
MemberExpression; a stream ending right after a consumed dot; and an opening
parenthesis with no further tokens. -/
theorem C9_abrupt_end :
    (∀ (c : ArrowCollab) (i y a : Bool), ArrowFunction.parse c i y a [] = .error .AbruptEnd)
    ∧ (∀ (c : ArrowCollab) (i : Bool), ConciseBody.parse c i [] = .error .AbruptEnd)
    ∧ (∀ ay aa : Bool, MemberExpression.parse ay aa [] = .error .AbruptEnd)
    ∧ (∀ ay aa : Bool, MemberExpression.parse ay aa [tkId "a", tkP .Dot] = .error .AbruptEnd)
    ∧ (∀ i y a : Bool, ArrowFunction.parse arrowModels i y a [tkP .OpenParen]
        = .error .AbruptEnd) := by
  refine ⟨?_, ?_, ?_, ?_, ?_⟩
  · intro c i y a; rfl
  · intro c i; rfl
  · intro ay aa; exact MemberExpression.parse.eq_1 ay aa
  · intro ay aa
    simp [MemberExpression.parse, PrimaryExpressionModel, MemberExpression.loop,
      tkId, tkP]
  · intro i y a; rfl

/-- C10: the end of the token stream is a valid terminator of the accessor
loop: with no tokens left the loop succeeds with the accumulated left-hand
side, a member chain that ends exactly at the end of input parses
successfully, and any non-accessor token likewise stops the loop without
consuming it. -/
theorem C10_eos_terminates_loop :
    (∀ (ay aa : Bool) (lhs : Node), MemberExpression.loop ay aa lhs [] = .ok (lhs, []))
    ∧ (∀ ay aa : Bool, MemberExpression.parse ay aa [tkId "a", tkP .Dot, tkId "b"]
        = .ok (.GetConstField (.Local "a") "b", []))
    ∧ (∀ (ay aa : Bool) (lhs : Node) (tok : Token) (rest : List Token),
        isAccessorStart tok.kind = false →
        MemberExpression.loop ay aa lhs (tok :: rest) = .ok (lhs, tok :: rest)) := by
  refine ⟨?_, ?_, ?_⟩
  · intro ay aa lhs
    exact MemberExpression.loop.eq_1 ay aa lhs
  · intro ay aa
    simp [MemberExpression.parse, PrimaryExpressionModel, MemberExpression.loop,
      tkId, tkP]
  · intro ay aa lhs tok rest h
    exact MemberExpression.loop_stop ay aa lhs tok rest h

/-- Witness for C10: the non-accessor clause applied at a semicolon token. -/
theorem C10_witness :
    MemberExpression.loop false false (.Local "a") [tkP .Semicolon]
      = .ok (.Local "a", [tkP .Semicolon]) :=
  C10_eos_terminates_loop.2.2 false false (.Local "a") (tkP .Semicolon) [] rfl

end Boa
